import Mathlib

/-!
Verification of the BGP-4 message codec types (`types.go`).

The first part embeds the Go source faithfully: machine integers become
`Nat` (with explicit bounds or `% 256` where Go converts), byte slices
become `List Nat`, and a possibly-nil `net.IP` becomes `Option (List Nat)`.
The second part models the encode/decode layer from the specification,
since `pack`/`unpack` are declared in the `Message` interface but not
implemented in the source.
-/

namespace bgp

/-! ## Constants (types.go, const block) -/

def typeOpen : Nat := 1
def typeUpdate : Nat := 2
def typeNotification : Nat := 3
def typeKeepalive : Nat := 4
def typeRouteRefresh : Nat := 5

def headerLen : Nat := 19
def MaxSize : Nat := 4096
def Version : Nat := 4

/-! ## Header -/

/-- `Header` from types.go: `{Length uint16; Type uint8}` (the Go field
`Type` is a Lean keyword, rendered here as `typ`). -/
structure Header where
  Length : Nat
  typ : Nat
deriving DecidableEq, Repr

/-- `newHeader(typ int)` returns `&Header{0, uint8(typ)}`; the `uint8`
conversion truncates mod 256. -/
def newHeader (t : Nat) : Header := ⟨0, t % 256⟩

/-! ## Prefix (`type Prefix net.IPNet`) and the `net` standard library
functions it relies on -/

/-- `Prefix` is `net.IPNet`: an address byte slice `IP` and a mask byte
slice `Mask`. -/
structure Prefix where
  IP : List Nat
  Mask : List Nat
deriving DecidableEq, Repr

/-- The inner loop of Go `net.simpleMaskLength` on one mask byte `v`:
`for v&0x80 != 0 { n++; v <<= 1 }; if v != 0 { return -1 }`.
`none` models the `-1` (non-canonical) outcome; the fuel 9 covers every
byte value (after one doubling mod 256 the value is below 256). -/
def maskBitsLoop : Nat → Nat → Option Nat
  | 0, v => if v = 0 then some 0 else none
  | f + 1, v =>
    if v &&& 128 ≠ 0 then (maskBitsLoop f ((v * 2) % 256)).map (· + 1)
    else if v = 0 then some 0 else none

/-- Go `net.simpleMaskLength`: the number of leading one bits of a mask
that is ones followed by zeros; `none` models the `-1` result for a
non-canonical mask. -/
def simpleMaskLength : List Nat → Option Nat
  | [] => some 0
  | v :: rest =>
    if v = 255 then (simpleMaskLength rest).map (· + 8)
    else
      match maskBitsLoop 9 v with
      | none => none
      | some n => if rest.all (· = 0) then some n else none

/-- Go `net.IPMask.Size`: `(ones, bits)`, which is `(0, 0)` when the mask
is not canonical, else `(leading ones, 8 * len(mask))`. -/
def maskSize (m : List Nat) : Nat × Nat :=
  match simpleMaskLength m with
  | none => (0, 0)
  | some n => (n, 8 * m.length)

/-- `Prefix.Size` from types.go: `_, bits := p.Mask.Size(); return bits`. -/
def Prefix.Size (p : Prefix) : Nat := (maskSize p.Mask).2

/-- `Prefix.len` from types.go: `return 1 + len(p.IP)`. -/
def Prefix.len (p : Prefix) : Nat := 1 + p.IP.length

/-! ## Path attributes -/

/-- Path flag constants from types.go (note the source shifts: `FlagLength`
is `1 << 5`). -/
def FlagOptional : Nat := 1 <<< 8
def FlagTransitive : Nat := 1 <<< 7
def FlagPartial : Nat := 1 <<< 6
def FlagLength : Nat := 1 <<< 5

/-- Path attribute type codes from types.go. -/
def Origin : Nat := 1
def ASPath : Nat := 2
def NextHop : Nat := 3
def MultiExitDisc : Nat := 4
def LocalPref : Nat := 5
def AtomicAggregate : Nat := 6
def Aggregator : Nat := 7

/-- `Path` from types.go: `{Flags uint8; Code uint8; Value []byte}`. -/
structure Path where
  Flags : Nat
  Code : Nat
  Value : List Nat
deriving DecidableEq, Repr

/-- `Path.len` from types.go: `2+2+len(Value)` when
`Flags&FlagLength == FlagLength`, else `2+1+len(Value)`. -/
def Path.len (p : Path) : Nat :=
  if p.Flags &&& FlagLength = FlagLength then 2 + 2 + p.Value.length
  else 2 + 1 + p.Value.length

/-- `Parameter` from types.go: `{Type uint8; Value []byte}` (`Type`
rendered as `typ`). -/
structure Parameter where
  typ : Nat
  Value : List Nat
deriving DecidableEq, Repr

/-- `Parameter.len` from types.go: `return 2 + len(p.Value)`. -/
def Parameter.len (p : Parameter) : Nat := 2 + p.Value.length

/-! ## OPEN -/

/-- Go `net.IP.To4`: the 4-byte form of an IPv4 address, or `nil`
(modelled as `none`) when the address is not representable in 4 bytes. -/
def To4 (ip : List Nat) : Option (List Nat) :=
  if ip.length = 4 then some ip
  else
    if ip.length = 16 ∧ (ip.take 10).all (· = 0) ∧
        ip.getD 10 0 = 255 ∧ ip.getD 11 0 = 255 then
      some (ip.drop 12)
    else none

/-- `OPEN` from types.go. `BGPIdentifier` is a `net.IP`, which may be nil:
`Option (List Nat)`. -/
structure OPEN where
  header : Header
  Version : Nat
  MyAS : Nat
  HoldTime : Nat
  BGPIdentifier : Option (List Nat)
  Parameters : List Parameter
deriving DecidableEq, Repr

/-- `NewOPEN` from types.go: stores `BGPIdentifier.To4()` without checking
it for nil. -/
def NewOPEN (MyAS HoldTime : Nat) (BGPIdentifier : List Nat)
    (Parameters : List Parameter) : OPEN :=
  ⟨newHeader typeOpen, Version, MyAS, HoldTime, To4 BGPIdentifier, Parameters⟩

/-- `OPEN.Len` from types.go: `headerLen + 10 +` the sum of the parameter
lengths. -/
def OPEN.Len (m : OPEN) : Nat :=
  headerLen + 10 + (m.Parameters.map Parameter.len).sum

/-! ## UPDATE -/

/-- `UPDATE` from types.go, including the two length fields the source
still stores (each marked `// make implicit` there). -/
structure UPDATE where
  header : Header
  withdrawnRoutesLength : Nat
  WithdrawnRoutes : List Prefix
  pathsLength : Nat
  Paths : List Path
  ReachabilityInfo : List Prefix
deriving DecidableEq, Repr

/-- `NewUPDATE` from types.go; the unlisted fields get Go zero values. -/
def NewUPDATE (WithdrawnRoutes : List Prefix) (Paths : List Path)
    (ReachabilityInfo : List Prefix) : UPDATE :=
  ⟨newHeader typeUpdate, 0, WithdrawnRoutes, 0, Paths, ReachabilityInfo⟩

/-- `UPDATE.Len` from types.go: `headerLen + 4 +` the sums of
`Prefix.len`/`Path.len` over the three sequences. -/
def UPDATE.Len (m : UPDATE) : Nat :=
  headerLen + 4 +
    ((m.WithdrawnRoutes.map Prefix.len).sum + (m.Paths.map Path.len).sum +
      (m.ReachabilityInfo.map Prefix.len).sum)

/-! ## KEEPALIVE and NOTIFICATION -/

/-- `KEEPALIVE` from types.go: only the header. -/
structure KEEPALIVE where
  header : Header
deriving DecidableEq, Repr

/-- `NewKEEPALIVE` from types.go. -/
def NewKEEPALIVE : KEEPALIVE := ⟨newHeader typeKeepalive⟩

/-- `KEEPALIVE.Len` from types.go: `return headerLen`. -/
def KEEPALIVE.Len (_ : KEEPALIVE) : Nat := headerLen

/-- `NOTIFICATION` from types.go. -/
structure NOTIFICATION where
  header : Header
  ErrorCode : Nat
  ErrorSubcode : Nat
  Data : List Nat
deriving DecidableEq, Repr

/-- `NOTIFICATION.Len` from types.go: `headerLen + 2 + len(m.Data)`. -/
def NOTIFICATION.Len (m : NOTIFICATION) : Nat := headerLen + 2 + m.Data.length

/-! ## The wire codec, modelled from the spec

`pack`/`unpack` are declared in the source's `Message` interface but are
not implemented in `types.go`; the definitions below model them from the
specification (sections 4.1 to 4.5). -/

/-- Modelled from the spec: big-endian `uint16` serialization used by the
header and the UPDATE length sub-fields (`binary.BigEndian.PutUint16`). -/
def u16be (n : Nat) : List Nat := [n / 256 % 256, n % 256]

/-- `ceil(n/8)`: the number of address bytes of a prefix of mask length
`n`. -/
def ceilDiv8 (n : Nat) : Nat := (n + 7) / 8

/-- The prefix's mask length as the codec reads it from the stored mask:
`ones, _ := p.Mask.Size()` (Go `net.IPMask.Size`). -/
def prefixOnes (p : Prefix) : Nat := (maskSize p.Mask).1

/-- Go `net.CIDRMask(ones, 8*k)` byte construction: `k` bytes of leading
one bits. -/
def cidrMaskAux : Nat → Nat → List Nat
  | 0, _ => []
  | k + 1, n =>
    if n ≥ 8 then 255 :: cidrMaskAux k (n - 8)
    else (255 - (255 >>> n)) :: cidrMaskAux k 0

/-- Go `net.CIDRMask(ones, 32)`: the canonical 4-byte IPv4 mask. -/
def cidrMask (ones : Nat) : List Nat := cidrMaskAux 4 ones

/-- Modelled from the spec (4.2): prefix encoding writes the mask length
as one byte, then `ceil(maskLength/8)` address bytes from the
most-significant end; it fails (`InvalidMaskLength`) if the mask length
exceeds 32 or the address is shorter than required. -/
def encPrefix (p : Prefix) : Option (List Nat) :=
  let n := prefixOnes p
  if n ≤ 32 ∧ ceilDiv8 n ≤ p.IP.length then
    some (n :: p.IP.take (ceilDiv8 n))
  else none

/-- Modelled from the spec: the concatenated encodings of a prefix list
(UPDATE withdrawn routes and NLRI). -/
def encPrefixList : List Prefix → Option (List Nat)
  | [] => some []
  | p :: ps =>
    match encPrefix p, encPrefixList ps with
    | some b, some bs => some (b ++ bs)
    | _, _ => none

/-- Modelled from the spec (4.3): path attribute encoding writes the flags
byte, the code byte, a 1- or 2-byte length chosen by the EXTENDED_LENGTH
flag bit, then the value; it fails (`AttributeLengthOverflow`) when the
value does not fit the width the flag implies. -/
def encPath (p : Path) : Option (List Nat) :=
  if p.Flags &&& FlagLength = FlagLength then
    if p.Value.length ≤ 65535 then
      some ([p.Flags, p.Code] ++ u16be p.Value.length ++ p.Value)
    else none
  else
    if p.Value.length ≤ 255 then
      some ([p.Flags, p.Code] ++ [p.Value.length] ++ p.Value)
    else none

/-- Modelled from the spec: the concatenated encodings of a path
attribute list. -/
def encPathList : List Path → Option (List Nat)
  | [] => some []
  | p :: ps =>
    match encPath p, encPathList ps with
    | some b, some bs => some (b ++ bs)
    | _, _ => none

/-- Modelled from the spec (4.4): OPEN parameter encoding writes the type
byte, a 1-byte length, then the value; it fails
(`ParameterLengthOverflow`) when the value exceeds 255 bytes. -/
def encParam (p : Parameter) : Option (List Nat) :=
  if p.Value.length ≤ 255 then some ([p.typ, p.Value.length] ++ p.Value)
  else none

/-- Modelled from the spec: the concatenated encodings of a parameter
list. -/
def encParamList : List Parameter → Option (List Nat)
  | [] => some []
  | p :: ps =>
    match encParam p, encParamList ps with
    | some b, some bs => some (b ++ bs)
    | _, _ => none

/-- Modelled from the spec (4.5 OPEN): version byte, `my_as` and
`hold_time` big-endian, exactly 4 identifier bytes (failing with
`InvalidIdentifier` otherwise), a 1-byte total-parameters-length, then the
parameters. -/
def encOpenBody (m : OPEN) : Option (List Nat) :=
  match m.BGPIdentifier with
  | none => none
  | some id4 =>
    if id4.length = 4 then
      match encParamList m.Parameters with
      | none => none
      | some pb =>
        if pb.length ≤ 255 then
          some ([m.Version] ++ u16be m.MyAS ++ u16be m.HoldTime ++ id4 ++
            [pb.length] ++ pb)
        else none
    else none

/-- Modelled from the spec (4.5 UPDATE): a 2-byte withdrawn-routes-length
followed by the withdrawn prefixes, a 2-byte path-attributes-length
followed by the attributes, then the NLRI prefixes with no explicit
length field. -/
def encUpdateBody (m : UPDATE) : Option (List Nat) :=
  match encPrefixList m.WithdrawnRoutes, encPathList m.Paths,
      encPrefixList m.ReachabilityInfo with
  | some wb, some pb, some nb =>
    if wb.length ≤ 65535 ∧ pb.length ≤ 65535 then
      some (u16be wb.length ++ wb ++ u16be pb.length ++ pb ++ nb)
    else none
  | _, _, _ => none

/-- Modelled from the spec (4.5 NOTIFICATION): error code, error subcode,
then the data bytes verbatim. -/
def encNotifBody (m : NOTIFICATION) : List Nat :=
  [m.ErrorCode, m.ErrorSubcode] ++ m.Data

/-- The closed set of message variants the codec dispatches over (spec
section 9: a tagged union keyed by the header type code). -/
inductive Msg
  | mOpen : OPEN → Msg
  | mUpdate : UPDATE → Msg
  | mKeepalive : KEEPALIVE → Msg
  | mNotification : NOTIFICATION → Msg
deriving DecidableEq, Repr

/-- The header stored in a message variant. -/
def Msg.header : Msg → Header
  | .mOpen m => m.header
  | .mUpdate m => m.header
  | .mKeepalive m => m.header
  | .mNotification m => m.header

/-- The wire type code of a message variant. -/
def Msg.typeCode : Msg → Nat
  | .mOpen _ => typeOpen
  | .mUpdate _ => typeUpdate
  | .mKeepalive _ => typeKeepalive
  | .mNotification _ => typeNotification

/-- Modelled from the spec: the encoded message body (everything after
the 3 post-marker header bytes). A KEEPALIVE has no body. -/
def Msg.encBody : Msg → Option (List Nat)
  | .mOpen m => encOpenBody m
  | .mUpdate m => encUpdateBody m
  | .mKeepalive _ => some []
  | .mNotification m => some (encNotifBody m)

/-- Modelled from the spec (4.1, 4.5): full message encoding. The header
length field is recomputed fresh as `19 + body size` (19 counts the
16-byte marker owned by the transport layer, so the bytes produced here
number `length - 16`), and encoding enforces `MaxSize`. -/
def encodeMsg (m : Msg) : Option (List Nat) :=
  match m.encBody with
  | none => none
  | some body =>
    if headerLen + body.length ≤ MaxSize then
      some (u16be (headerLen + body.length) ++ [m.typeCode] ++ body)
    else none

/-- Modelled from the spec (4.2): decode a run of prefixes filling its
byte region exactly; each prefix is a mask-length byte followed by
`ceil(maskLength/8)` address bytes, zero-padded to a 4-byte address with
mask `CIDRMask(maskLength, 32)`. The fuel only bounds recursion; any
value at least the region length is enough. -/
def decPrefixList : Nat → List Nat → Option (List Prefix)
  | _, [] => some []
  | 0, _ :: _ => none
  | fuel + 1, n :: rest =>
    if n ≤ 32 ∧ ceilDiv8 n ≤ rest.length then
      match decPrefixList fuel (rest.drop (ceilDiv8 n)) with
      | some ps =>
        some (⟨rest.take (ceilDiv8 n) ++ List.replicate (4 - ceilDiv8 n) 0,
          cidrMask n⟩ :: ps)
      | none => none
    else none

/-- Modelled from the spec (4.3): decode a run of path attributes filling
its byte region exactly; the EXTENDED_LENGTH bit of the flags byte
selects a 1- or 2-byte length field. -/
def decPathList : Nat → List Nat → Option (List Path)
  | _, [] => some []
  | 0, _ :: _ => none
  | _ + 1, [_] => none
  | fuel + 1, f :: c :: rest =>
    if f &&& FlagLength = FlagLength then
      match rest with
      | hi :: lo :: rest2 =>
        let L := hi * 256 + lo
        if L ≤ rest2.length then
          match decPathList fuel (rest2.drop L) with
          | some ps => some (⟨f, c, rest2.take L⟩ :: ps)
          | none => none
        else none
      | _ => none
    else
      match rest with
      | lo :: rest2 =>
        if lo ≤ rest2.length then
          match decPathList fuel (rest2.drop lo) with
          | some ps => some (⟨f, c, rest2.take lo⟩ :: ps)
          | none => none
        else none
      | _ => none

/-- Modelled from the spec (4.4): decode a run of OPEN parameters filling
its byte region exactly (type byte, 1-byte length, value). -/
def decParamList : Nat → List Nat → Option (List Parameter)
  | _, [] => some []
  | 0, _ :: _ => none
  | _ + 1, [_] => none
  | fuel + 1, t :: l :: rest =>
    if l ≤ rest.length then
      match decParamList fuel (rest.drop l) with
      | some ps => some (⟨t, rest.take l⟩ :: ps)
      | none => none
    else none

/-- Modelled from the spec (4.5 OPEN): decode the OPEN body, validating
that the declared parameters length matches the bytes actually present
(`ParameterLengthMismatch` otherwise). -/
def decOpenBody (hdr : Header) (body : List Nat) : Option OPEN :=
  match body with
  | v :: a1 :: a0 :: h1 :: h0 :: i0 :: i1 :: i2 :: i3 :: pl :: rest =>
    if pl = rest.length then
      match decParamList rest.length rest with
      | some ps =>
        some ⟨hdr, v, a1 * 256 + a0, h1 * 256 + h0, some [i0, i1, i2, i3], ps⟩
      | none => none
    else none
  | _ => none

/-- Modelled from the spec (4.5 UPDATE): decode withdrawn routes (bounded
by their length field), path attributes (bounded by their length field),
then NLRI from all remaining body bytes. The decoded length sub-fields
are codec-local bookkeeping only and are not stored in the structure
(spec section 9). -/
def decUpdateBody (hdr : Header) (body : List Nat) : Option UPDATE :=
  match body with
  | w1 :: w0 :: rest =>
    let W := w1 * 256 + w0
    if W ≤ rest.length then
      match decPrefixList W (rest.take W) with
      | some wrs =>
        match rest.drop W with
        | p1 :: p0 :: rest2 =>
          let P := p1 * 256 + p0
          if P ≤ rest2.length then
            match decPathList P (rest2.take P),
                decPrefixList (rest2.length - P) (rest2.drop P) with
            | some paths, some nlri => some ⟨hdr, 0, wrs, 0, paths, nlri⟩
            | _, _ => none
          else none
        | _ => none
      | none => none
    else none
  | _ => none

/-- Modelled from the spec (4.5 NOTIFICATION): error code, error subcode,
then all remaining body bytes as data. -/
def decNotifBody (hdr : Header) (body : List Nat) : Option NOTIFICATION :=
  match body with
  | ec :: sc :: data => some ⟨hdr, ec, sc, data⟩
  | _ => none

/-- Modelled from the spec (4.5 KEEPALIVE): the body must be empty
(`UnexpectedPayload` otherwise). -/
def decKeepaliveBody (hdr : Header) (body : List Nat) : Option KEEPALIVE :=
  match body with
  | [] => some ⟨hdr⟩
  | _ :: _ => none

/-- Modelled from the spec (4.1, 4.5): full message decode. The 2-byte
length and 1-byte type are read and validated (`19 ≤ length ≤ MaxSize`,
known type code, enough bytes available), the body is the next
`length - 19` bytes, and the bytes-consumed count `length - 16` is
returned alongside the message so a caller can continue in a shared
buffer. -/
def decodeMsg (bs : List Nat) : Option (Msg × Nat) :=
  match bs with
  | b1 :: b0 :: t :: rest =>
    let L := b1 * 256 + b0
    if headerLen ≤ L ∧ L ≤ MaxSize ∧ L - headerLen ≤ rest.length then
      let body := rest.take (L - headerLen)
      let hdr : Header := ⟨L, t⟩
      let consumed := L - 16
      if t = typeOpen then
        (decOpenBody hdr body).map (fun m => (Msg.mOpen m, consumed))
      else if t = typeUpdate then
        (decUpdateBody hdr body).map (fun m => (Msg.mUpdate m, consumed))
      else if t = typeNotification then
        (decNotifBody hdr body).map (fun m => (Msg.mNotification m, consumed))
      else if t = typeKeepalive then
        (decKeepaliveBody hdr body).map (fun m => (Msg.mKeepalive m, consumed))
      else none
    else none
  | _ => none

/-! ## Validity

The "valid message" side conditions of the spec's round-trip property:
fields fit their declared wire widths, prefixes are stored as 4-byte
zero-padded addresses with canonical masks, the two UPDATE length
sub-fields are left derived (zero, as `NewUPDATE` leaves them), and the
header holds the recomputed length and the variant's type code. -/

/-- A prefix as the spec stores it: canonical 4-byte mask, 4 address
bytes, and address bytes beyond the mask length zeroed. -/
def validPrefixb (p : Prefix) : Bool :=
  decide (p.Mask = cidrMask (prefixOnes p)) && prefixOnes p ≤ 32 &&
    p.IP.length = 4 && p.IP.all (· < 256) &&
    decide (p.IP.drop (ceilDiv8 (prefixOnes p)) =
      List.replicate (4 - ceilDiv8 (prefixOnes p)) 0)

/-- A path attribute whose fields fit their wire widths. -/
def validPathb (p : Path) : Bool :=
  p.Flags < 256 && p.Code < 256 && p.Value.all (· < 256) &&
    (if p.Flags &&& FlagLength = FlagLength then p.Value.length ≤ 65535
     else p.Value.length ≤ 255)

/-- An OPEN parameter whose fields fit their wire widths. -/
def validParamb (p : Parameter) : Bool :=
  p.typ < 256 && p.Value.all (· < 256) && p.Value.length ≤ 255

/-- The per-variant field conditions of a valid message. -/
def validFieldsb : Msg → Bool
  | .mOpen m =>
    m.Version < 256 && m.MyAS < 65536 && m.HoldTime < 65536 &&
      (match m.BGPIdentifier with
       | some l => l.all (· < 256)
       | none => false) &&
      m.Parameters.all validParamb
  | .mUpdate m =>
    m.withdrawnRoutesLength = 0 && m.pathsLength = 0 &&
      m.WithdrawnRoutes.all validPrefixb && m.Paths.all validPathb &&
      m.ReachabilityInfo.all validPrefixb
  | .mKeepalive _ => true
  | .mNotification m =>
    m.ErrorCode < 256 && m.ErrorSubcode < 256 && m.Data.all (· < 256)

/-- A valid message: its body encodes, the total length respects
`MaxSize`, the header holds the recomputed length and the variant's type
code (spec section 3), and all fields fit their wire widths. -/
def validMsgb (m : Msg) : Bool :=
  match m.encBody with
  | none => false
  | some body =>
    decide (m.header = ⟨headerLen + body.length, m.typeCode⟩) &&
      headerLen + body.length ≤ MaxSize && validFieldsb m

/-! ## The Len methods as state transformers

Each Go `Len` method takes a pointer receiver, so it could in principle
mutate the message; the bodies in types.go assign no receiver field, so
their faithful state-transformer form returns the receiver unchanged
(the doc comment on `OPEN.Len` claims it "also sets the length in
m.Length", but no such assignment occurs in the body). -/

/-- `(m *OPEN) Len()` as (result, receiver after the call). -/
def OPEN.LenRun (m : OPEN) : Nat × OPEN := (m.Len, m)

/-- `(m *UPDATE) Len()` as (result, receiver after the call). -/
def UPDATE.LenRun (m : UPDATE) : Nat × UPDATE := (m.Len, m)

/-- `(m *KEEPALIVE) Len()` as (result, receiver after the call). -/
def KEEPALIVE.LenRun (m : KEEPALIVE) : Nat × KEEPALIVE := (m.Len, m)

/-- `(m *NOTIFICATION) Len()` as (result, receiver after the call). -/
def NOTIFICATION.LenRun (m : NOTIFICATION) : Nat × NOTIFICATION := (m.Len, m)

/-! ## Round-trip lemmas for the section codecs -/

theorem u16be_round {n : Nat} (h : n ≤ 65535) :
    n / 256 % 256 * 256 + n % 256 = n := by omega

theorem validPrefixb_spec {p : Prefix} (hv : validPrefixb p = true) :
    p.Mask = cidrMask (prefixOnes p) ∧ prefixOnes p ≤ 32 ∧ p.IP.length = 4 ∧
    p.IP.drop (ceilDiv8 (prefixOnes p)) =
      List.replicate (4 - ceilDiv8 (prefixOnes p)) 0 := by
  unfold validPrefixb at hv
  simp only [Bool.and_eq_true, decide_eq_true_eq] at hv
  exact ⟨hv.1.1.1.1, hv.1.1.1.2, hv.1.1.2, hv.2⟩

/-- A valid prefix encodes as its mask-length byte and its significant
address bytes, and a prefix-list region decodes back to the prefixes it
was encoded from. -/
theorem decPrefixList_enc :
    ∀ ps : List Prefix, (∀ p ∈ ps, validPrefixb p = true) →
      ∃ bs, encPrefixList ps = some bs ∧
        ∀ fuel, bs.length ≤ fuel → decPrefixList fuel bs = some ps := by
  intro ps
  induction ps with
  | nil =>
    intro _
    exact ⟨[], rfl, fun fuel _ => by cases fuel <;> rfl⟩
  | cons p ps ih =>
    intro hv
    obtain ⟨bs', henc', hdec'⟩ := ih (fun q hq => hv q (List.mem_cons_of_mem _ hq))
    obtain ⟨hmask, hones, hlen, hdrop⟩ :=
      validPrefixb_spec (hv p (List.mem_cons_self p ps))
    have hk4 : ceilDiv8 (prefixOnes p) ≤ 4 := by
      unfold ceilDiv8
      omega
    have htk : (p.IP.take (ceilDiv8 (prefixOnes p))).length =
        ceilDiv8 (prefixOnes p) :=
      List.length_take_of_le (by rw [hlen]; exact hk4)
    have hencp : encPrefix p =
        some (prefixOnes p :: p.IP.take (ceilDiv8 (prefixOnes p))) := by
      unfold encPrefix
      rw [if_pos ⟨hones, by rw [hlen]; exact hk4⟩]
    refine ⟨(prefixOnes p :: p.IP.take (ceilDiv8 (prefixOnes p))) ++ bs',
      ?_, ?_⟩
    · unfold encPrefixList
      rw [hencp, henc']
    · intro fuel hfuel
      simp only [List.cons_append, List.length_cons, List.length_append,
        htk] at hfuel ⊢
      cases fuel with
      | zero => omega
      | succ f =>
        show decPrefixList (f + 1)
          (prefixOnes p :: (p.IP.take (ceilDiv8 (prefixOnes p)) ++ bs')) = _
        unfold decPrefixList
        rw [if_pos ⟨hones, by rw [List.length_append, htk]; omega⟩]
        rw [List.drop_left' htk, hdec' f (by omega)]
        rw [List.take_left' htk]
        have hip : p.IP.take (ceilDiv8 (prefixOnes p)) ++
            List.replicate (4 - ceilDiv8 (prefixOnes p)) 0 = p.IP := by
          rw [← hdrop]
          exact List.take_append_drop _ _
        rw [hip, ← hmask]

theorem validPathb_spec {p : Path} (hv : validPathb p = true) :
    (p.Flags &&& FlagLength = FlagLength → p.Value.length ≤ 65535) ∧
    (¬p.Flags &&& FlagLength = FlagLength → p.Value.length ≤ 255) := by
  unfold validPathb at hv
  simp only [Bool.and_eq_true, decide_eq_true_eq] at hv
  have hw := hv.2
  by_cases hx : p.Flags &&& FlagLength = FlagLength
  · rw [if_pos hx] at hw
    simp only [decide_eq_true_eq] at hw
    exact ⟨fun _ => hw, fun hc => absurd hx hc⟩
  · rw [if_neg hx] at hw
    simp only [decide_eq_true_eq] at hw
    exact ⟨fun hc => absurd hc hx, fun _ => hw⟩

/-- A valid path attribute encodes as flags, code, its width-selected
length field and its value, and an attribute-list region decodes back to
the attributes it was encoded from. -/
theorem decPathList_enc :
    ∀ ps : List Path, (∀ p ∈ ps, validPathb p = true) →
      ∃ bs, encPathList ps = some bs ∧
        ∀ fuel, bs.length ≤ fuel → decPathList fuel bs = some ps := by
  intro ps
  induction ps with
  | nil =>
    intro _
    exact ⟨[], rfl, fun fuel _ => by cases fuel <;> rfl⟩
  | cons p ps ih =>
    intro hv
    obtain ⟨bs', henc', hdec'⟩ := ih (fun q hq => hv q (List.mem_cons_of_mem _ hq))
    have hvp := validPathb_spec (hv p (List.mem_cons_self p ps))
    by_cases hx : p.Flags &&& FlagLength = FlagLength
    · have hle : p.Value.length ≤ 65535 := hvp.1 hx
      have hL : p.Value.length / 256 % 256 * 256 + p.Value.length % 256 =
          p.Value.length := u16be_round hle
      have hencp : encPath p =
          some ([p.Flags, p.Code] ++ u16be p.Value.length ++ p.Value) := by
        unfold encPath
        rw [if_pos hx, if_pos hle]
      refine ⟨([p.Flags, p.Code] ++ u16be p.Value.length ++ p.Value) ++ bs',
        by unfold encPathList; rw [hencp, henc'], ?_⟩
      intro fuel hfuel
      simp only [u16be, List.cons_append, List.nil_append, List.length_cons,
        List.length_append] at hfuel ⊢
      cases fuel with
      | zero => omega
      | succ f =>
        unfold decPathList
        rw [if_pos hx]
        simp only [List.length_append]
        rw [hL]
        rw [if_pos (by omega)]
        rw [List.drop_left' rfl, hdec' f (by omega), List.take_left' rfl]
    · have hle : p.Value.length ≤ 255 := hvp.2 hx
      have hencp : encPath p =
          some ([p.Flags, p.Code] ++ [p.Value.length] ++ p.Value) := by
        unfold encPath
        rw [if_neg hx, if_pos hle]
      refine ⟨([p.Flags, p.Code] ++ [p.Value.length] ++ p.Value) ++ bs',
        by unfold encPathList; rw [hencp, henc'], ?_⟩
      intro fuel hfuel
      simp only [List.cons_append, List.nil_append, List.length_cons,
        List.length_append] at hfuel ⊢
      cases fuel with
      | zero => omega
      | succ f =>
        unfold decPathList
        rw [if_neg hx]
        simp only [List.length_append]
        rw [if_pos (by omega)]
        rw [List.drop_left' rfl, hdec' f (by omega), List.take_left' rfl]

theorem validParamb_spec {p : Parameter} (hv : validParamb p = true) :
    p.Value.length ≤ 255 := by
  unfold validParamb at hv
  simp only [Bool.and_eq_true, decide_eq_true_eq] at hv
  exact hv.2

/-- A valid OPEN parameter encodes as type, 1-byte length and value, and
a parameter-list region decodes back to the parameters it was encoded
from. -/
theorem decParamList_enc :
    ∀ ps : List Parameter, (∀ p ∈ ps, validParamb p = true) →
      ∃ bs, encParamList ps = some bs ∧
        ∀ fuel, bs.length ≤ fuel → decParamList fuel bs = some ps := by
  intro ps
  induction ps with
  | nil =>
    intro _
    exact ⟨[], rfl, fun fuel _ => by cases fuel <;> rfl⟩
  | cons p ps ih =>
    intro hv
    obtain ⟨bs', henc', hdec'⟩ := ih (fun q hq => hv q (List.mem_cons_of_mem _ hq))
    have hle : p.Value.length ≤ 255 :=
      validParamb_spec (hv p (List.mem_cons_self p ps))
    have hencp : encParam p = some ([p.typ, p.Value.length] ++ p.Value) := by
      unfold encParam
      rw [if_pos hle]
    refine ⟨([p.typ, p.Value.length] ++ p.Value) ++ bs',
      by unfold encParamList; rw [hencp, henc'], ?_⟩
    intro fuel hfuel
    simp only [List.cons_append, List.nil_append, List.length_cons,
      List.length_append] at hfuel ⊢
    cases fuel with
    | zero => omega
    | succ f =>
      unfold decParamList
      rw [if_pos (by rw [List.length_append]; omega)]
      rw [List.drop_left' rfl, hdec' f (by omega), List.take_left' rfl]

/-- Decoding a freshly encoded header (length `19 + |body|`, a type byte,
then exactly the body) passes the header validation and hands the intact
body to the per-type decoder. -/
theorem decodeMsg_step (tc : Nat) (body : List Nat)
    (h : headerLen + body.length ≤ MaxSize) :
    decodeMsg (u16be (headerLen + body.length) ++ [tc] ++ body) =
      (if tc = typeOpen then
        (decOpenBody ⟨headerLen + body.length, tc⟩ body).map
          (fun x => (Msg.mOpen x, headerLen + body.length - 16))
      else if tc = typeUpdate then
        (decUpdateBody ⟨headerLen + body.length, tc⟩ body).map
          (fun x => (Msg.mUpdate x, headerLen + body.length - 16))
      else if tc = typeNotification then
        (decNotifBody ⟨headerLen + body.length, tc⟩ body).map
          (fun x => (Msg.mNotification x, headerLen + body.length - 16))
      else if tc = typeKeepalive then
        (decKeepaliveBody ⟨headerLen + body.length, tc⟩ body).map
          (fun x => (Msg.mKeepalive x, headerLen + body.length - 16))
      else none) := by
  unfold headerLen MaxSize at h
  unfold headerLen
  have hround : (19 + body.length) / 256 % 256 * 256 +
      (19 + body.length) % 256 = 19 + body.length := u16be_round (by omega)
  simp only [u16be, List.cons_append, List.nil_append]
  unfold decodeMsg
  simp only [hround, headerLen, MaxSize]
  rw [if_pos ⟨by omega, by omega, by omega⟩]
  have htake : (19 + body.length) - 19 = body.length := by omega
  rw [htake, List.take_length]

/-- Encoding a message whose body encodes and fits `MaxSize` produces the
header bytes followed by the body. -/
theorem encodeMsg_step (m : Msg) (body : List Nat) (hb : m.encBody = some body)
    (h : headerLen + body.length ≤ MaxSize) :
    encodeMsg m = some (u16be (headerLen + body.length) ++ [m.typeCode] ++ body) := by
  unfold encodeMsg
  rw [hb]
  exact if_pos h

/-- `decodeMsg_step` specialized to the OPEN type code. -/
theorem decodeMsg_step_open (body : List Nat)
    (h : headerLen + body.length ≤ MaxSize) :
    decodeMsg (u16be (headerLen + body.length) ++ [typeOpen] ++ body) =
      (decOpenBody ⟨headerLen + body.length, typeOpen⟩ body).map
        (fun x => (Msg.mOpen x, headerLen + body.length - 16)) := by
  rw [decodeMsg_step typeOpen body h]
  norm_num [typeOpen]

/-- `decodeMsg_step` specialized to the UPDATE type code. -/
theorem decodeMsg_step_update (body : List Nat)
    (h : headerLen + body.length ≤ MaxSize) :
    decodeMsg (u16be (headerLen + body.length) ++ [typeUpdate] ++ body) =
      (decUpdateBody ⟨headerLen + body.length, typeUpdate⟩ body).map
        (fun x => (Msg.mUpdate x, headerLen + body.length - 16)) := by
  rw [decodeMsg_step typeUpdate body h]
  norm_num [typeOpen, typeUpdate]

/-- `decodeMsg_step` specialized to the NOTIFICATION type code. -/
theorem decodeMsg_step_notif (body : List Nat)
    (h : headerLen + body.length ≤ MaxSize) :
    decodeMsg (u16be (headerLen + body.length) ++ [typeNotification] ++ body) =
      (decNotifBody ⟨headerLen + body.length, typeNotification⟩ body).map
        (fun x => (Msg.mNotification x, headerLen + body.length - 16)) := by
  rw [decodeMsg_step typeNotification body h]
  norm_num [typeOpen, typeUpdate, typeNotification]

/-- `decodeMsg_step` specialized to the KEEPALIVE type code. -/
theorem decodeMsg_step_keepalive (body : List Nat)
    (h : headerLen + body.length ≤ MaxSize) :
    decodeMsg (u16be (headerLen + body.length) ++ [typeKeepalive] ++ body) =
      (decKeepaliveBody ⟨headerLen + body.length, typeKeepalive⟩ body).map
        (fun x => (Msg.mKeepalive x, headerLen + body.length - 16)) := by
  rw [decodeMsg_step typeKeepalive body h]
  norm_num [typeOpen, typeUpdate, typeNotification, typeKeepalive]

/-! ## Claims -/

/-- C1. The claim says every Prefix encodes to `1 + ceil(mask_length/8)`
bytes, citing `Prefix.len`. The source's `Prefix.len` returns
`1 + len(p.IP)` and ignores the mask length entirely: for `10.0.0.0/8`
stored the standard way (4-byte address, mask 255.0.0.0) it returns 5
where the wire format (and the spec-modelled encoder `encPrefix`) gives
2 bytes, and for mask length 0 with a 4-byte address it returns 5 where
the claim requires 1. -/
theorem claim_C1 :
    Prefix.len ⟨[10, 0, 0, 0], [255, 0, 0, 0]⟩ = 5 ∧
    prefixOnes ⟨[10, 0, 0, 0], [255, 0, 0, 0]⟩ = 8 ∧
    1 + ceilDiv8 8 = 2 ∧
    encPrefix ⟨[10, 0, 0, 0], [255, 0, 0, 0]⟩ = some [8, 10] ∧
    Prefix.len ⟨[0, 0, 0, 0], [0, 0, 0, 0]⟩ = 5 ∧
    encPrefix ⟨[0, 0, 0, 0], [0, 0, 0, 0]⟩ = some [0] := by
  decide

/-- C2. The claim says an UPDATE withdrawing `10.0.0.0/8` (no attributes,
no NLRI) has `Len() = 25`. With the standard 4-byte stored address the
source's `UPDATE.Len` returns 28, because `Prefix.len` counts
`1 + len(IP) = 5` instead of the 2 wire bytes; the spec-modelled encoder
produces the 25-byte message (2-byte withdrawn section, zero
path-attributes length, 9 bytes after the 16-byte marker). -/
theorem claim_C2 :
    UPDATE.Len (NewUPDATE [⟨[10, 0, 0, 0], [255, 0, 0, 0]⟩] [] []) = 28 ∧
    encodeMsg (Msg.mUpdate
        ⟨⟨25, typeUpdate⟩, 0, [⟨[10, 0, 0, 0], [255, 0, 0, 0]⟩], 0, [], []⟩) =
      some [0, 25, 2, 0, 2, 8, 10, 0, 0] ∧
    [0, 25, 2, 0, 2, 8, 10, 0, 0].length + 16 = 25 := by
  decide

/-- C4. `NewKEEPALIVE()` yields a message with `Len() = 19` and header
type code `typeKeepalive = 4`. -/
theorem claim_C4 :
    KEEPALIVE.Len NewKEEPALIVE = 19 ∧ NewKEEPALIVE.header.typ = 4 ∧
    typeKeepalive = 4 := by
  decide

/-- C5. `NewOPEN(65001, 180, 192.0.2.1, [])` has version 4, MyAS 65001,
HoldTime 180, identifier bytes `[192,0,2,1]`, no parameters (so a
parameters length of 0), and `Len() = 29`. -/
theorem claim_C5 :
    (NewOPEN 65001 180 [192, 0, 2, 1] []).Version = 4 ∧
    (NewOPEN 65001 180 [192, 0, 2, 1] []).MyAS = 65001 ∧
    (NewOPEN 65001 180 [192, 0, 2, 1] []).HoldTime = 180 ∧
    (NewOPEN 65001 180 [192, 0, 2, 1] []).BGPIdentifier = some [192, 0, 2, 1] ∧
    (NewOPEN 65001 180 [192, 0, 2, 1] []).Parameters = [] ∧
    ((NewOPEN 65001 180 [192, 0, 2, 1] []).Parameters.map Parameter.len).sum = 0 ∧
    OPEN.Len (NewOPEN 65001 180 [192, 0, 2, 1] []) = 29 := by
  decide

/-- C6. The wire length field of a path attribute is 2 bytes wide exactly
when the EXTENDED_LENGTH flag (`FlagLength`) is set in the flags byte and
1 byte wide otherwise, and `Path.len` accounts for it: `4 + len(Value)`
with the flag, `3 + len(Value)` without. -/
theorem claim_C6 (p : Path) :
    ((p.Flags &&& FlagLength = FlagLength → p.len = 4 + p.Value.length) ∧
      (¬p.Flags &&& FlagLength = FlagLength → p.len = 3 + p.Value.length)) ∧
    (p.Flags &&& FlagLength = FlagLength → ∀ bs, encPath p = some bs →
      bs = [p.Flags, p.Code] ++ u16be p.Value.length ++ p.Value ∧
        (u16be p.Value.length).length = 2) ∧
    (¬p.Flags &&& FlagLength = FlagLength → ∀ bs, encPath p = some bs →
      bs = [p.Flags, p.Code] ++ [p.Value.length] ++ p.Value ∧
        ([p.Value.length] : List Nat).length = 1) := by
  by_cases h : p.Flags &&& FlagLength = FlagLength
  · refine ⟨⟨fun _ => ?_, fun hc => absurd h hc⟩, fun _ bs hbs => ?_,
      fun hc => absurd h hc⟩
    · simp [Path.len, h]
    · unfold encPath at hbs
      rw [if_pos h] at hbs
      split at hbs
      · exact ⟨(Option.some.inj hbs).symm, rfl⟩
      · cases hbs
  · refine ⟨⟨fun hc => absurd hc h, fun _ => ?_⟩, fun hc => absurd hc h,
      fun _ bs hbs => ?_⟩
    · simp [Path.len, h]
    · unfold encPath at hbs
      rw [if_neg h] at hbs
      split at hbs
      · exact ⟨(Option.some.inj hbs).symm, rfl⟩
      · cases hbs

/-- C6 witness: with the flag (flags byte 32 = `FlagLength`) a one-byte
value gives `len = 4 + 1`; without it, `3 + 1`. -/
theorem claim_C6_witness :
    Path.len ⟨FlagLength, ASPath, [5]⟩ = 4 + 1 ∧
    Path.len ⟨FlagTransitive, ASPath, [5]⟩ = 3 + 1 :=
  ⟨(claim_C6 ⟨FlagLength, ASPath, [5]⟩).1.1 (by decide),
    (claim_C6 ⟨FlagTransitive, ASPath, [5]⟩).1.2 (by decide)⟩

/-- C7. `UPDATE.Len` is derived from the three sequences alone: two
UPDATE values agreeing on `WithdrawnRoutes`, `Paths` and
`ReachabilityInfo` get the same `Len()`, whatever their stored
`withdrawnRoutesLength`/`pathsLength` (and header) fields hold. -/
theorem claim_C7 (u1 u2 : UPDATE)
    (hw : u1.WithdrawnRoutes = u2.WithdrawnRoutes) (hp : u1.Paths = u2.Paths)
    (hr : u1.ReachabilityInfo = u2.ReachabilityInfo) : u1.Len = u2.Len := by
  unfold UPDATE.Len
  rw [hw, hp, hr]

/-- C7 witness: two concrete UPDATEs with the same (empty) sequences but
different stored length sub-fields and headers have equal `Len()`. -/
theorem claim_C7_witness :
    UPDATE.Len ⟨⟨0, 2⟩, 0, [], 0, [], []⟩ =
      UPDATE.Len ⟨⟨9, 9⟩, 7, [], 5, [], []⟩ :=
  claim_C7 ⟨⟨0, 2⟩, 0, [], 0, [], []⟩ ⟨⟨9, 9⟩, 7, [], 5, [], []⟩ rfl rfl rfl

/-- C8. No `Len` method mutates its receiver: each state-transformer form
returns the message unchanged, and the constructors leave
`Header.Length = 0` (the doc comment on `OPEN.Len` notwithstanding), so
it is still 0 after calling `Len`. -/
theorem claim_C8 (o : OPEN) (u : UPDATE) (k : KEEPALIVE) (n : NOTIFICATION)
    (a h : Nat) (ip : List Nat) (ps : List Parameter) (w : List Prefix)
    (pa : List Path) (r : List Prefix) :
    (OPEN.LenRun o).2 = o ∧ (UPDATE.LenRun u).2 = u ∧
    (KEEPALIVE.LenRun k).2 = k ∧ (NOTIFICATION.LenRun n).2 = n ∧
    (NewOPEN a h ip ps).header.Length = 0 ∧
    (NewUPDATE w pa r).header.Length = 0 ∧
    NewKEEPALIVE.header.Length = 0 ∧
    ((OPEN.LenRun (NewOPEN a h ip ps)).2).header.Length = 0 ∧
    ((UPDATE.LenRun (NewUPDATE w pa r)).2).header.Length = 0 :=
  ⟨rfl, rfl, rfl, rfl, rfl, rfl, rfl, rfl, rfl⟩

/-- C9. `NewOPEN` is total and never reports a bad identifier: whenever
`To4` yields `nil` (`none`), the OPEN message is still constructed, with a
nil `BGPIdentifier` and all other fields set as usual. -/
theorem claim_C9 (a h : Nat) (ip : List Nat) (ps : List Parameter)
    (hnil : To4 ip = none) :
    (NewOPEN a h ip ps).BGPIdentifier = none ∧
    (NewOPEN a h ip ps).Version = 4 ∧ (NewOPEN a h ip ps).MyAS = a ∧
    (NewOPEN a h ip ps).HoldTime = h ∧ (NewOPEN a h ip ps).Parameters = ps := by
  refine ⟨?_, rfl, rfl, rfl, rfl⟩
  show To4 ip = none
  exact hnil

/-- C9 witness: a 3-byte `net.IP` has no 4-byte form, and `NewOPEN` still
returns a message, with a nil identifier. -/
theorem claim_C9_witness :
    To4 [1, 2, 3] = none ∧
    (NewOPEN 65001 180 [1, 2, 3] []).BGPIdentifier = none :=
  ⟨by decide, (claim_C9 65001 180 [1, 2, 3] [] (by decide)).1⟩

/-- C10. For a well-formed (canonical, 4-byte) IPv4 mask, `Prefix.Size`
returns the mask's total bit width 32 — `Mask.Size()`'s second component —
never the number of leading one bits, except when that number is itself
32. -/
theorem claim_C10 (p : Prefix) (n : Nat) (hlen : p.Mask.length = 4)
    (hcanon : simpleMaskLength p.Mask = some n) :
    p.Size = 32 ∧ (n ≠ 32 → p.Size ≠ n) := by
  have hsize : p.Size = 32 := by
    unfold Prefix.Size maskSize
    rw [hcanon]
    simp [hlen]
  exact ⟨hsize, fun hne => by rw [hsize]; omega⟩

/-- C3. Round trip: every valid message of each of the four types decodes
from its own encoding to a structurally equal message, and the
bytes-consumed count equals the encoding's length. -/
theorem claim_C3 (m : Msg) (hv : validMsgb m = true) :
    ∃ bs, encodeMsg m = some bs ∧ decodeMsg bs = some (m, bs.length) := by
  cases m with
  | mKeepalive k =>
    obtain ⟨hd⟩ := k
    unfold validMsgb at hv
    simp only [Msg.encBody, Msg.typeCode, validFieldsb, Bool.and_eq_true,
      decide_eq_true_eq, List.length_nil, Nat.add_zero] at hv
    obtain ⟨⟨hhdr, hmax⟩, -⟩ := hv
    subst hhdr
    exact ⟨[0, 19, 4], by decide, by decide⟩
  | mNotification n =>
    obtain ⟨hd, ec, sc, data⟩ := n
    have hb : (Msg.mNotification ⟨hd, ec, sc, data⟩).encBody =
        some (ec :: sc :: data) := by
      simp [Msg.encBody, encNotifBody]
    unfold validMsgb at hv
    rw [hb] at hv
    simp only [Bool.and_eq_true, decide_eq_true_eq] at hv
    obtain ⟨⟨hhdr, hmax⟩, -⟩ := hv
    refine ⟨_, encodeMsg_step _ _ hb hmax, ?_⟩
    simp only [Msg.typeCode] at hhdr ⊢
    rw [decodeMsg_step_notif _ hmax]
    simp only [decNotifBody, Option.map_some']
    simp only [Msg.header] at hhdr
    rw [← hhdr]
    simp only [Option.some.injEq, Prod.mk.injEq, u16be, List.cons_append,
      List.nil_append, List.length_cons, List.length_append, true_and]
    unfold headerLen
    omega
  | mOpen o =>
    obtain ⟨hd, V, AS, HT, oid, ps⟩ := o
    cases oid with
    | none =>
      exfalso
      simp [validMsgb, Msg.encBody, encOpenBody] at hv
    | some id4 =>
      by_cases hid : id4.length = 4
      · cases hpe : encParamList ps with
        | none =>
          exfalso
          simp [validMsgb, Msg.encBody, encOpenBody, hid, hpe] at hv
        | some pb =>
          by_cases hpl : pb.length ≤ 255
          · have hb : (Msg.mOpen ⟨hd, V, AS, HT, some id4, ps⟩).encBody =
                some ([V] ++ u16be AS ++ u16be HT ++ id4 ++ [pb.length] ++ pb) := by
              simp only [Msg.encBody, encOpenBody]
              rw [if_pos hid, hpe]
              exact if_pos hpl
            unfold validMsgb at hv
            rw [hb] at hv
            simp only [Bool.and_eq_true, decide_eq_true_eq] at hv
            obtain ⟨⟨hhdr, hmax⟩, hfv⟩ := hv
            simp only [validFieldsb, Bool.and_eq_true, decide_eq_true_eq] at hfv
            obtain ⟨⟨⟨⟨-, hAS⟩, hHT⟩, -⟩, hpsv⟩ := hfv
            obtain ⟨i0, i1, i2, i3, hi⟩ :
                ∃ a b c d, id4 = [a, b, c, d] := by
              match id4, hid with
              | [a, b, c, d], _ => exact ⟨a, b, c, d, rfl⟩
            obtain ⟨pb', hpe', hpdec⟩ := decParamList_enc ps
              (fun q hq => by
                rw [List.all_eq_true] at hpsv
                exact hpsv q hq)
            rw [hpe] at hpe'
            obtain rfl : pb = pb' := Option.some.inj hpe'
            refine ⟨_, encodeMsg_step _ _ hb hmax, ?_⟩
            simp only [Msg.typeCode] at hhdr ⊢
            rw [decodeMsg_step_open _ hmax]
            subst hi
            simp only [u16be, List.cons_append, List.nil_append,
              List.length_cons, List.length_append]
            simp only [decOpenBody]
            rw [if_pos trivial]
            rw [hpdec pb.length (Nat.le_refl _)]
            have hASr : AS / 256 % 256 * 256 + AS % 256 = AS :=
              u16be_round (by omega)
            have hHTr : HT / 256 % 256 * 256 + HT % 256 = HT :=
              u16be_round (by omega)
            simp only [Msg.header] at hhdr
            rw [hASr, hHTr, hhdr]
            simp only [Option.map_some', Option.some.injEq, Prod.mk.injEq,
              Msg.mOpen.injEq, OPEN.mk.injEq, Header.mk.injEq, u16be,
              List.cons_append, List.nil_append, List.append_assoc,
              List.length_append, List.length_cons, true_and, and_true]
            unfold headerLen
            omega
          · exfalso
            simp [validMsgb, Msg.encBody, encOpenBody, hid, hpe, hpl] at hv
      · exfalso
        simp [validMsgb, Msg.encBody, encOpenBody, hid] at hv
  | mUpdate u =>
    obtain ⟨hd, wrl, wrs, pl, pas, nlri⟩ := u
    cases hw : encPrefixList wrs with
    | none =>
      exfalso
      simp [validMsgb, Msg.encBody, encUpdateBody, hw] at hv
    | some wb =>
      cases hp : encPathList pas with
      | none =>
        exfalso
        simp [validMsgb, Msg.encBody, encUpdateBody, hw, hp] at hv
      | some pb =>
        cases hr : encPrefixList nlri with
        | none =>
          exfalso
          simp [validMsgb, Msg.encBody, encUpdateBody, hw, hp, hr] at hv
        | some nb =>
          by_cases hg : wb.length ≤ 65535 ∧ pb.length ≤ 65535
          · have hb : (Msg.mUpdate ⟨hd, wrl, wrs, pl, pas, nlri⟩).encBody =
                some (u16be wb.length ++ wb ++ u16be pb.length ++ pb ++ nb) := by
              simp only [Msg.encBody, encUpdateBody]
              rw [hw, hp, hr]
              exact if_pos hg
            unfold validMsgb at hv
            rw [hb] at hv
            simp only [Bool.and_eq_true, decide_eq_true_eq] at hv
            obtain ⟨⟨hhdr, hmax⟩, hfv⟩ := hv
            simp only [validFieldsb, Bool.and_eq_true, decide_eq_true_eq] at hfv
            obtain ⟨⟨⟨⟨hwrl, hpl⟩, hwv⟩, hpv⟩, hrv⟩ := hfv
            obtain ⟨wb', hw', hwdec⟩ := decPrefixList_enc wrs
              (fun q hq => by
                rw [List.all_eq_true] at hwv
                exact hwv q hq)
            rw [hw] at hw'
            obtain rfl : wb = wb' := Option.some.inj hw'
            obtain ⟨pb', hp', hpdec⟩ := decPathList_enc pas
              (fun q hq => by
                rw [List.all_eq_true] at hpv
                exact hpv q hq)
            rw [hp] at hp'
            obtain rfl : pb = pb' := Option.some.inj hp'
            obtain ⟨nb', hr', hndec⟩ := decPrefixList_enc nlri
              (fun q hq => by
                rw [List.all_eq_true] at hrv
                exact hrv q hq)
            rw [hr] at hr'
            obtain rfl : nb = nb' := Option.some.inj hr'
            refine ⟨_, encodeMsg_step _ _ hb hmax, ?_⟩
            simp only [Msg.typeCode] at hhdr ⊢
            rw [decodeMsg_step_update _ hmax]
            simp only [u16be, List.cons_append, List.nil_append,
              List.append_assoc]
            simp only [decUpdateBody]
            rw [u16be_round hg.1]
            rw [if_pos (by simp [List.length_append])]
            rw [List.take_left' rfl, List.drop_left' rfl]
            rw [hwdec wb.length (Nat.le_refl _)]
            simp only [List.length_append]
            rw [u16be_round hg.2]
            rw [if_pos (by simp [List.length_append])]
            rw [List.take_left' rfl, List.drop_left' rfl]
            rw [hpdec pb.length (Nat.le_refl _)]
            have hnf : pb.length + nb.length - pb.length = nb.length := by
              omega
            rw [hnf, hndec nb.length (Nat.le_refl _)]
            simp only [Msg.header] at hhdr
            rw [hwrl, hpl, hhdr]
            simp only [Option.map_some', Option.some.injEq, Prod.mk.injEq,
              Msg.mUpdate.injEq, UPDATE.mk.injEq, Header.mk.injEq, u16be,
              List.cons_append, List.nil_append, List.append_assoc,
              List.length_append, List.length_cons, true_and, and_true]
            unfold headerLen
            omega
          · exfalso
            simp [validMsgb, Msg.encBody, encUpdateBody, hw, hp, hr, hg] at hv

/-- C3 witness: concrete valid messages of all four types, round-tripped. -/
theorem claim_C3_witness :
    (∃ bs, encodeMsg (Msg.mKeepalive ⟨⟨19, 4⟩⟩) = some bs ∧
      decodeMsg bs = some (Msg.mKeepalive ⟨⟨19, 4⟩⟩, bs.length)) ∧
    (∃ bs, encodeMsg (Msg.mOpen ⟨⟨33, 1⟩, 4, 65001, 180, some [192, 0, 2, 1],
        [⟨2, [7, 9]⟩]⟩) = some bs ∧
      decodeMsg bs = some (Msg.mOpen ⟨⟨33, 1⟩, 4, 65001, 180,
        some [192, 0, 2, 1], [⟨2, [7, 9]⟩]⟩, bs.length)) ∧
    (∃ bs, encodeMsg (Msg.mUpdate ⟨⟨35, 2⟩, 0, [⟨[10, 0, 0, 0], [255, 0, 0, 0]⟩],
        0, [⟨FlagLength, 1, [0, 1, 2]⟩], [⟨[192, 168, 0, 0], [255, 255, 0, 0]⟩]⟩) =
        some bs ∧
      decodeMsg bs = some (Msg.mUpdate ⟨⟨35, 2⟩, 0,
        [⟨[10, 0, 0, 0], [255, 0, 0, 0]⟩], 0, [⟨FlagLength, 1, [0, 1, 2]⟩],
        [⟨[192, 168, 0, 0], [255, 255, 0, 0]⟩]⟩, bs.length)) ∧
    (∃ bs, encodeMsg (Msg.mNotification ⟨⟨23, 3⟩, 6, 0, [1, 2]⟩) = some bs ∧
      decodeMsg bs = some (Msg.mNotification ⟨⟨23, 3⟩, 6, 0, [1, 2]⟩, bs.length)) :=
  ⟨claim_C3 _ (by decide), claim_C3 _ (by decide), claim_C3 _ (by decide),
    claim_C3 _ (by decide)⟩

/-- C10 witness: the /8 prefix `10.0.0.0/8` has `Size() = 32`, not 8. -/
theorem claim_C10_witness :
    Prefix.Size ⟨[10, 0, 0, 0], [255, 0, 0, 0]⟩ = 32 ∧
    Prefix.Size ⟨[10, 0, 0, 0], [255, 0, 0, 0]⟩ ≠ 8 := by
  have h := claim_C10 ⟨[10, 0, 0, 0], [255, 0, 0, 0]⟩ 8 (by decide) (by decide)
  exact ⟨h.1, h.2 (by decide)⟩

end bgp
